import Mathlib

/-!
Shallow embedding of two application modules of the repository
`Shualite/NLP_pytorch_project`:

* `src/Text_Generation/GPT2_TitleGen/data_process.py`
  (feature building, on-disk cache, batch collation), and
* `src/NMT/Transformers_NMT/transformer/decoder.py`
  (Transformer decoder construction, preprocessing, masking, beam search).

Pure functions of the Python source become Lean functions; the file-system
cache becomes explicit state passing; Python `assert` statements become
`Option` guards (`none` models the raised `AssertionError`).  External
library calls (the subword tokenizer, `torch.nn.utils.rnn.pad_sequence`) and
repository helpers that are not part of the two source files
(`transformer/utils.py`, `transformer/module.py`, `transformer/attention.py`)
are abstracted as parameters or modelled from the specification; each such
definition says so in its doc comment.
-/

/-- Every element of a list is bounded by the `foldr max 0` of the list. -/
theorem le_foldr_max (l : List ℕ) (x : ℕ) (hx : x ∈ l) :
    x ≤ l.foldr max 0 := by
  induction l with
  | nil => cases hx
  | cons a t ih =>
    rcases List.mem_cons.mp hx with rfl | h
    · exact le_max_left _ _
    · exact le_trans (ih h) (le_max_right _ _)

namespace GPT2TitleGen

/-- Python slice `l[:k]` for an arbitrary (possibly negative) integer `k`:
a non-negative bound takes the first `k` elements (clamped to the length),
a negative bound counts from the end, clamped at zero. -/
def pySlice {α : Type} (k : ℤ) (l : List α) : List α :=
  if 0 ≤ k then l.take k.toNat else l.take ((l.length : ℤ) + k).toNat

/-- One feature record of the pipeline: the `input_ids` sequence and the
parallel `token_type_ids` sequence, as produced by `convert_feature`. -/
structure Feature where
  input_ids : List ℤ
  token_type_ids : List ℤ
deriving DecidableEq, Repr

/-- Special-token ids of `GPT2NewsTitleDataSet`: obtained from the external
tokenizer in `__init__` (`cls_token_id`, `sep_token_id`, and the ids of the
added tokens `[Content]` and `[Title]`). -/
structure TokIds where
  cls_token_id : ℤ
  sep_token_id : ℤ
  content_id : ℤ
  title_id : ℤ
deriving DecidableEq, Repr

/-- `GPT2NewsTitleDataSet.convert_feature` (data_process.py, lines 66-112),
with the external tokenizer abstracted: `content_tokens` and `title_tokens`
are the outputs of `tokenizer.tokenize` on the sample's content and
(space-substituted) title, and `conv` is `tokenizer.convert_tokens_to_ids`.
The title is truncated to `title_max_len` when longer; the content is then
truncated with the Python slice bound `max_len - len(title_tokens) - 3`;
`input_ids` is CLS, content ids, SEP, title ids, SEP and `token_type_ids`
tags each position with the content or title segment id.  The two trailing
`assert` statements are modelled as guards returning `none` on failure. -/
def convert_feature {τ : Type} (ids : TokIds) (max_len title_max_len : ℕ)
    (conv : τ → ℤ) (content_tokens title_tokens : List τ) : Option Feature :=
  let title1 := if title_max_len < title_tokens.length
    then title_tokens.take title_max_len else title_tokens
  let bound : ℤ := (max_len : ℤ) - (title1.length : ℤ) - 3
  let content1 := if bound < (content_tokens.length : ℤ)
    then pySlice bound content_tokens else content_tokens
  let input_ids : List ℤ :=
    (((ids.cls_token_id :: content1.map conv) ++ [ids.sep_token_id])
      ++ title1.map conv) ++ [ids.sep_token_id]
  let token_type_ids : List ℤ :=
    (((ids.content_id :: List.replicate content1.length ids.content_id)
      ++ [ids.content_id])
      ++ List.replicate title1.length ids.title_id) ++ [ids.title_id]
  if input_ids.length = token_type_ids.length then
    if input_ids.length ≤ max_len then
      some ⟨input_ids, token_type_ids⟩
    else none
  else none

/-- `GPT2NewsTitleDataSet.load_data` (data_process.py, lines 52-64): convert
every raw sample (already tokenized, the tokenizer being external) into a
feature record; a failed assertion inside `convert_feature` aborts the whole
load, modelled by `none`. -/
def load_data {τ : Type} (ids : TokIds) (max_len title_max_len : ℕ)
    (conv : τ → ℤ) : List (List τ × List τ) → Option (List Feature)
  | [] => some []
  | s :: rest =>
    match convert_feature ids max_len title_max_len conv s.1 s.2 with
    | none => none
    | some f =>
      match load_data ids max_len title_max_len conv rest with
      | none => none
      | some fs => some (f :: fs)

/-- The nested assertion guards of `convert_feature`, in isolation: a
`some` result forces both asserted conditions. -/
theorem assert_guards_some {X Y : List ℤ} {m : ℕ} {f : Feature}
    (hf : (if X.length = Y.length then
        if X.length ≤ m then some (⟨X, Y⟩ : Feature) else none
      else none) = some f) :
    f.input_ids.length = f.token_type_ids.length ∧
      f.input_ids.length ≤ m := by
  split at hf
  next h1 =>
    split at hf
    next h2 => cases hf; exact ⟨h1, h2⟩
    next => exact Option.noConfusion hf
  next => exact Option.noConfusion hf

/-- Any feature record `convert_feature` actually returns satisfies the two
`assert`ed invariants: parallel lengths, and length at most `max_len`. -/
theorem convert_feature_some_length {τ : Type} {ids : TokIds}
    {max_len title_max_len : ℕ} {conv : τ → ℤ} {ct tt : List τ} {f : Feature}
    (hf : convert_feature ids max_len title_max_len conv ct tt = some f) :
    f.input_ids.length = f.token_type_ids.length ∧
      f.input_ids.length ≤ max_len := by
  simp only [convert_feature] at hf
  exact assert_guards_some hf

/-- The value `torch.save`d to the cache file: the Python dict
`{"data_set": self.data_set}` written at data_process.py line 50. -/
structure CacheVal where
  data_set : List Feature
deriving DecidableEq, Repr

/-- The file system, as far as the cache logic observes it: a finite map
from paths to saved values (`os.path.exists` is domain membership,
`torch.load` is lookup, `torch.save` is insertion). -/
abbrev FS : Type := List (String × CacheVal)

/-- `os.path.exists` / `torch.load` on the modelled file system. -/
def FS.lookup (fs : FS) (p : String) : Option CacheVal :=
  match fs with
  | [] => none
  | (q, v) :: rest => if q = p then some v else FS.lookup rest p

/-- `torch.save` on the modelled file system: (over)writes path `p`. -/
def FS.save (fs : FS) (p : String) (v : CacheVal) : FS := (p, v) :: fs

/-- Cache path built at data_process.py line 39:
`os.path.join(data_dir, "cached_{}_{}".format(data_set_name, max_len))`. -/
def cached_feature_file (data_dir data_set_name : String) (max_len : ℕ) :
    String :=
  data_dir ++ "/cached_" ++ data_set_name ++ "_" ++ toString max_len

/-- Result of constructing `GPT2NewsTitleDataSet`: the loaded `data_set`,
the file system afterwards, and whether the raw file was (re)processed
(i.e. whether the `else` branch calling `load_data` ran). -/
structure InitResult where
  data_set : List Feature
  fs : FS
  processed_raw : Bool
deriving DecidableEq, Repr

/-- `GPT2NewsTitleDataSet.__init__` (data_process.py, lines 17-50), cache
logic only: if the cache file exists and `is_overwrite` is off, load it;
otherwise process the raw data (already tokenized, `raw`) with `load_data`
and save the result under the cache path.  `none` models the process dying
inside `load_data` (a failed assertion). -/
def datasetInit {τ : Type} (ids : TokIds) (max_len title_max_len : ℕ)
    (conv : τ → ℤ) (data_dir data_set_name : String)
    (raw : List (List τ × List τ)) (is_overwrite : Bool) (fs : FS) :
    Option InitResult :=
  let path := cached_feature_file data_dir data_set_name max_len
  match FS.lookup fs path, is_overwrite with
  | some v, false => some ⟨v.data_set, fs, false⟩
  | _, _ =>
    match load_data ids max_len title_max_len conv raw with
    | none => none
    | some d => some ⟨d, FS.save fs path ⟨d⟩, true⟩

/-- `torch.nn.utils.rnn.pad_sequence(batch_first=True, padding_value=pad)`,
an external library call.  Modelled from the spec: "right-pad all input-id
sequences to the batch maximum (pad value 0) and all segment-id sequences
likewise": every row is extended with the pad value up to the maximum row
length of the batch. -/
def pad_sequence (pad : ℤ) (rows : List (List ℤ)) : List (List ℤ) :=
  let n := (rows.map List.length).foldr max 0
  rows.map fun r => r ++ List.replicate (n - r.length) pad

/-- Return value of `collate_func`: either the empty dict returned for an
empty batch (line 132) or the dict of two padded tensors (lines 144-145). -/
inductive CollateResult
  | emptyDict : CollateResult
  | batch (input_ids token_type_ids : List (List ℤ)) : CollateResult
deriving DecidableEq, Repr

/-- `collate_func` (data_process.py, lines 122-145): an empty batch yields
the empty dict; otherwise the `input_ids` and `token_type_ids` of the
records are each padded with `pad_sequence(..., padding_value=0)`. -/
def collate_func (batch_data : List Feature) : CollateResult :=
  if batch_data.length = 0 then .emptyDict
  else .batch (pad_sequence 0 (batch_data.map Feature.input_ids))
    (pad_sequence 0 (batch_data.map Feature.token_type_ids))

/-- An `if _ < length then take else id` truncation is a plain `take`. -/
theorem take_if_lt {α : Type} (n : ℕ) (l : List α) :
    (if n < l.length then l.take n else l) = l.take n := by
  split
  · rfl
  · exact (List.take_of_length_le (by omega)).symm

/-- The content-truncation branch of `convert_feature`, rewritten as a
natural-number `take` when the slice bound is non-negative. -/
theorem content_branch_eq_take {α : Type} (m t : ℕ) (h : t + 3 ≤ m)
    (ct : List α) :
    (if ((m : ℤ) - (t : ℤ) - 3) < (ct.length : ℤ)
      then pySlice ((m : ℤ) - (t : ℤ) - 3) ct else ct) =
    ct.take (m - t - 3) := by
  have hb : ((m : ℤ) - (t : ℤ) - 3) = ((m - t - 3 : ℕ) : ℤ) := by omega
  rw [hb]
  split
  · unfold pySlice
    rw [if_pos (by positivity)]
    simp
  · exact (List.take_of_length_le (by omega)).symm

/-- A cons of `a` commutes over a block of `a`-replicates. -/
theorem cons_replicate_comm {α : Type} (a : α) (n : ℕ) (l : List α) :
    a :: (List.replicate n a ++ l) = List.replicate n a ++ a :: l := by
  induction n with
  | zero => rfl
  | succ k ih => simp [List.replicate_succ, ih]

/-- Closed form of `convert_feature` whenever the (already truncated) title
and the three special tokens fit in `max_len`: the title is first truncated
to `title_max_len`, the content is then truncated to
`max_len - title_length - 3`, and the two output sequences are the
CLS/content/SEP/title/SEP layout with its parallel segment tags. -/
theorem convert_feature_eq {τ : Type} (ids : TokIds)
    (max_len title_max_len : ℕ) (conv : τ → ℤ) (ct tt : List τ)
    (h : (tt.take title_max_len).length + 3 ≤ max_len) :
    convert_feature ids max_len title_max_len conv ct tt =
      some ⟨ids.cls_token_id ::
              (ct.take (max_len - (tt.take title_max_len).length - 3)).map conv
              ++ [ids.sep_token_id] ++ (tt.take title_max_len).map conv
              ++ [ids.sep_token_id],
            List.replicate
                ((ct.take (max_len - (tt.take title_max_len).length - 3)).length + 2)
                ids.content_id
              ++ List.replicate ((tt.take title_max_len).length + 1)
                ids.title_id⟩ := by
  have h' : title_max_len ⊓ tt.length + 3 ≤ max_len := by simpa using h
  simp only [convert_feature, take_if_lt, content_branch_eq_take _ _ h]
  rw [if_pos (by simp), if_pos (by simp; omega)]
  have h2 : List.replicate 2 ids.content_id = [ids.content_id, ids.content_id] := rfl
  have h1 : List.replicate 1 ids.title_id = [ids.title_id] := rfl
  simp only [Option.some.injEq, Feature.mk.injEq]
  refine ⟨by simp, ?_⟩
  simp [List.replicate_add, h2, h1, List.append_assoc, cons_replicate_comm]

/-- C2: the title is truncated to `title_max_len` first and the content is
then truncated to `max_len - len(title) - 3`; for a sample with 10 content
tokens and 3 title tokens under `max_len = 20` and `title_max_len ≥ 3`,
`convert_feature` returns `input_ids` of length 16 laid out as
CLS, content, SEP, title, SEP, and `token_type_ids` of the same length with
the 12 content-region positions tagged `content_id` and the 4 title-region
positions tagged `title_id`. -/
theorem convert_feature_truncation_and_example :
    (∀ (τ : Type) (ids : TokIds) (max_len title_max_len : ℕ) (conv : τ → ℤ)
        (ct tt : List τ), (tt.take title_max_len).length + 3 ≤ max_len →
      convert_feature ids max_len title_max_len conv ct tt =
        some ⟨ids.cls_token_id ::
                (ct.take (max_len - (tt.take title_max_len).length - 3)).map conv
                ++ [ids.sep_token_id] ++ (tt.take title_max_len).map conv
                ++ [ids.sep_token_id],
              List.replicate
                  ((ct.take (max_len - (tt.take title_max_len).length - 3)).length + 2)
                  ids.content_id
                ++ List.replicate ((tt.take title_max_len).length + 1)
                  ids.title_id⟩) ∧
    (∀ (τ : Type) (ids : TokIds) (title_max_len : ℕ) (conv : τ → ℤ)
        (ct tt : List τ),
      ct.length = 10 → tt.length = 3 → 3 ≤ title_max_len →
      ∃ f, convert_feature ids 20 title_max_len conv ct tt = some f ∧
        f.input_ids = ids.cls_token_id :: ct.map conv ++ [ids.sep_token_id]
          ++ tt.map conv ++ [ids.sep_token_id] ∧
        f.token_type_ids = List.replicate 12 ids.content_id
          ++ List.replicate 4 ids.title_id ∧
        f.input_ids.length = 16 ∧ f.token_type_ids.length = 16) := by
  refine ⟨fun τ ids max_len title_max_len conv ct tt h =>
    convert_feature_eq ids max_len title_max_len conv ct tt h, ?_⟩
  intro τ ids title_max_len conv ct tt hct htt hmax
  have h3 : tt.take title_max_len = tt := List.take_of_length_le (by omega)
  have h := convert_feature_eq ids 20 title_max_len conv ct tt
    (by rw [h3, htt]; omega)
  rw [h3, htt] at h
  have h4 : ct.take (20 - 3 - 3) = ct := List.take_of_length_le (by omega)
  rw [h4, hct] at h
  refine ⟨_, h, rfl, rfl, ?_, ?_⟩ <;> simp [hct, htt]

/-- Witness for C2 at a concrete sample: content `0..9` (10 tokens), title
`0..2` (3 tokens), `max_len = 20`, `title_max_len = 3`. -/
theorem convert_feature_truncation_and_example_witness :
    ∃ f, convert_feature ⟨101, 102, 1, 2⟩ 20 3 (fun n : ℕ => (n : ℤ))
        (List.range 10) (List.range 3) = some f ∧
      f.input_ids = (101 : ℤ) :: (List.range 10).map (fun n : ℕ => (n : ℤ))
        ++ [102] ++ (List.range 3).map (fun n : ℕ => (n : ℤ)) ++ [102] ∧
      f.token_type_ids = List.replicate 12 (1 : ℤ)
        ++ List.replicate 4 (2 : ℤ) ∧
      f.input_ids.length = 16 ∧ f.token_type_ids.length = 16 :=
  convert_feature_truncation_and_example.2 ℕ ⟨101, 102, 1, 2⟩ 3
    (fun n : ℕ => (n : ℤ)) (List.range 10) (List.range 3)
    (by decide) (by decide) (by decide)

/-- C7: whenever `convert_feature` returns, `input_ids` and
`token_type_ids` have the same length and that length is at most `max_len`;
consequently every feature record that `load_data` produces satisfies the
same invariant. -/
theorem feature_length_invariant :
    (∀ (τ : Type) (ids : TokIds) (max_len title_max_len : ℕ) (conv : τ → ℤ)
        (ct tt : List τ) (f : Feature),
      convert_feature ids max_len title_max_len conv ct tt = some f →
      f.input_ids.length = f.token_type_ids.length ∧
        f.input_ids.length ≤ max_len) ∧
    (∀ (τ : Type) (ids : TokIds) (max_len title_max_len : ℕ) (conv : τ → ℤ)
        (samples : List (List τ × List τ)) (l : List Feature),
      load_data ids max_len title_max_len conv samples = some l →
      ∀ f ∈ l, f.input_ids.length = f.token_type_ids.length ∧
        f.input_ids.length ≤ max_len) := by
  refine ⟨fun τ ids max_len title_max_len conv ct tt f hf =>
    convert_feature_some_length hf, ?_⟩
  intro τ ids max_len title_max_len conv samples
  induction samples with
  | nil =>
    intro l hl
    simp only [load_data, Option.some.injEq] at hl
    subst hl
    simp
  | cons s rest ih =>
    intro l hl
    simp only [load_data] at hl
    cases hcf : convert_feature ids max_len title_max_len conv s.1 s.2 with
    | none => rw [hcf] at hl; exact Option.noConfusion hl
    | some f0 =>
      rw [hcf] at hl
      cases hld : load_data ids max_len title_max_len conv rest with
      | none => rw [hld] at hl; exact Option.noConfusion hl
      | some fs =>
        rw [hld] at hl
        cases hl
        intro f hf
        rcases List.mem_cons.mp hf with rfl | hmem
        · exact convert_feature_some_length hcf
        · exact ih fs hld f hmem

/-- Witness for C7 at the empty sample: `convert_feature` returns the
three-special-token feature, whose lengths are equal and at most 20. -/
theorem feature_length_invariant_witness :
    convert_feature ⟨101, 102, 1, 2⟩ 20 3 (fun n : ℕ => (n : ℤ)) [] [] =
      some ⟨[101, 102, 102], [1, 1, 2]⟩ ∧
    (([101, 102, 102] : List ℤ).length = ([1, 1, 2] : List ℤ).length ∧
      ([101, 102, 102] : List ℤ).length ≤ 20) :=
  ⟨by decide, feature_length_invariant.1 ℕ ⟨101, 102, 1, 2⟩ 20 3
    (fun n : ℕ => (n : ℤ)) [] [] ⟨[101, 102, 102], [1, 1, 2]⟩ (by decide)⟩

/-- C6: with the force-rebuild flag off, a second construction of the
dataset with the same dataset name and max length finds the cache written
(or found) by the first construction, loads it directly
(`processed_raw = false`), returns exactly the first construction's feature
data, and leaves the file system untouched — so the raw file is processed
at most once across the two constructions. -/
theorem dataset_cache_roundtrip :
    ∀ (τ : Type) (ids : TokIds) (max_len title_max_len : ℕ) (conv : τ → ℤ)
      (data_dir data_set_name : String) (raw : List (List τ × List τ))
      (fs : FS) (r1 : InitResult),
    datasetInit ids max_len title_max_len conv data_dir data_set_name raw
        false fs = some r1 →
    datasetInit ids max_len title_max_len conv data_dir data_set_name raw
        false r1.fs = some ⟨r1.data_set, r1.fs, false⟩ := by
  intro τ ids max_len title_max_len conv data_dir data_set_name raw fs r1 h1
  simp only [datasetInit] at h1 ⊢
  cases hl : FS.lookup fs (cached_feature_file data_dir data_set_name max_len)
    with
  | some v =>
    rw [hl] at h1
    cases h1
    rw [hl]
  | none =>
    rw [hl] at h1
    cases hld : load_data ids max_len title_max_len conv raw with
    | none => rw [hld] at h1; exact Option.noConfusion h1
    | some d =>
      rw [hld] at h1
      cases h1
      have : FS.lookup
          (FS.save fs (cached_feature_file data_dir data_set_name max_len) ⟨d⟩)
          (cached_feature_file data_dir data_set_name max_len) = some ⟨d⟩ := by
        simp [FS.save, FS.lookup]
      rw [this]

/-- Witness for C6: one raw sample, empty file system; the first
construction processes and caches, the second loads the cache unchanged. -/
theorem dataset_cache_roundtrip_witness :
    datasetInit ⟨101, 102, 1, 2⟩ 20 3 (fun n : ℕ => (n : ℤ)) "d" "n"
        [([], [])] false [] =
      some ⟨[⟨[101, 102, 102], [1, 1, 2]⟩],
        [(cached_feature_file "d" "n" 20,
          ⟨[⟨[101, 102, 102], [1, 1, 2]⟩]⟩)], true⟩ ∧
    datasetInit ⟨101, 102, 1, 2⟩ 20 3 (fun n : ℕ => (n : ℤ)) "d" "n"
        [([], [])] false
        [(cached_feature_file "d" "n" 20,
          ⟨[⟨[101, 102, 102], [1, 1, 2]⟩]⟩)] =
      some ⟨[⟨[101, 102, 102], [1, 1, 2]⟩],
        [(cached_feature_file "d" "n" 20,
          ⟨[⟨[101, 102, 102], [1, 1, 2]⟩]⟩)], false⟩ :=
  ⟨by decide, dataset_cache_roundtrip ℕ ⟨101, 102, 1, 2⟩ 20 3
    (fun n : ℕ => (n : ℤ)) "d" "n" [([], [])] []
    ⟨[⟨[101, 102, 102], [1, 1, 2]⟩],
      [(cached_feature_file "d" "n" 20,
        ⟨[⟨[101, 102, 102], [1, 1, 2]⟩]⟩)], true⟩ (by decide)⟩

/-- Every row of a `pad_sequence` result has the batch-maximum length. -/
theorem pad_sequence_row_length (pad : ℤ) (rows : List (List ℤ)) :
    ∀ r ∈ pad_sequence pad rows,
      r.length = (rows.map List.length).foldr max 0 := by
  intro r hr
  simp only [pad_sequence, List.mem_map] at hr
  obtain ⟨r0, hr0, rfl⟩ := hr
  have hle : r0.length ≤ (rows.map List.length).foldr max 0 :=
    le_foldr_max _ _ (List.mem_map.mpr ⟨r0, hr0, rfl⟩)
  simp only [List.length_append, List.length_replicate]
  omega

/-- C8: `collate_func` on the empty batch returns the empty dict; on any
non-empty batch it returns the dict of the two `pad_sequence`d tensors, in
which every `input_ids` row is its original sequence right-padded with
zeros to the batch maximum, likewise every `token_type_ids` row, and all
rows of each tensor end up with that common maximum length. -/
theorem collate_func_empty_and_padding :
    collate_func [] = CollateResult.emptyDict ∧
    (∀ batch : List Feature, batch ≠ [] →
      collate_func batch = CollateResult.batch
        (batch.map fun f => f.input_ids ++
          List.replicate
            (((batch.map Feature.input_ids).map List.length).foldr max 0
              - f.input_ids.length) 0)
        (batch.map fun f => f.token_type_ids ++
          List.replicate
            (((batch.map Feature.token_type_ids).map List.length).foldr max 0
              - f.token_type_ids.length) 0) ∧
      (∀ r ∈ pad_sequence 0 (batch.map Feature.input_ids),
        r.length =
          ((batch.map Feature.input_ids).map List.length).foldr max 0) ∧
      (∀ r ∈ pad_sequence 0 (batch.map Feature.token_type_ids),
        r.length =
          ((batch.map Feature.token_type_ids).map List.length).foldr max 0)) := by
  refine ⟨rfl, ?_⟩
  intro batch hb
  refine ⟨?_, pad_sequence_row_length 0 _, pad_sequence_row_length 0 _⟩
  have hlen : batch.length ≠ 0 := fun h => hb (List.length_eq_zero.mp h)
  simp only [collate_func, if_neg hlen, pad_sequence, List.map_map]
  rfl

/-- Witness for C8: a two-record batch with ragged rows is padded with
zeros to the batch maximum length 2. -/
theorem collate_func_empty_and_padding_witness :
    collate_func [⟨[5], [1]⟩, ⟨[6, 7], [1, 2]⟩] = CollateResult.batch
        [[5, 0], [6, 7]] [[1, 0], [1, 2]] ∧
    (∀ r ∈ pad_sequence 0 [[(5 : ℤ)], [6, 7]], r.length = 2) := by
  have h := collate_func_empty_and_padding.2 [⟨[5], [1]⟩, ⟨[6, 7], [1, 2]⟩]
    (by decide)
  exact ⟨by rw [h.1]; decide, fun r hr => by
    have := h.2.1 r (by simpa using hr)
    simpa using this⟩

end GPT2TitleGen

namespace TransformerNMT

/-- `y[y != Config.IGNORE_ID]`: drop the IGNORE_ID sentinel positions from
one label sequence (decoder.py line 85). -/
def filtered (ignore_id : ℤ) (y : List ℤ) : List ℤ :=
  y.filter fun t => !(t == ignore_id)

/-- `utils.pad_list(xs, pad_value)`: `transformer/utils.py` is not among
the source files.  Modelled from the spec: "right-pad both to the batch's
maximum length", each sequence extended with the pad value up to the
longest sequence of the batch. -/
def pad_list (pad : ℤ) (xs : List (List ℤ)) : List (List ℤ) :=
  let n := (xs.map List.length).foldr max 0
  xs.map fun x => x ++ List.replicate (n - x.length) pad

/-- Maximum filtered length of a batch, the padding target of
`Decoder.preprocess` minus the added start/end token. -/
def batch_max_len (ignore_id : ℤ) (batch : List (List ℤ)) : ℕ :=
  (batch.map fun y => (filtered ignore_id y).length).foldr max 0

/-- `Decoder.preprocess` (decoder.py, lines 77-97): filter out IGNORE_ID,
prepend `sos_id` to build the decoder input, append `eos_id` to build the
gold output, pad the inputs with `eos_id` and the gold with IGNORE_ID.
`none` models the `IndexError` that `ys[0]` raises on an empty batch, and
the `assert ys_in_pad.size() == ys_out_pad.size()` guard. -/
def preprocess (ignore_id sos_id eos_id : ℤ) (padded_input : List (List ℤ)) :
    Option (List (List ℤ) × List (List ℤ)) :=
  match padded_input with
  | [] => none
  | _ :: _ =>
    let ys := padded_input.map (filtered ignore_id)
    let ys_in := ys.map fun y => sos_id :: y
    let ys_out := ys.map fun y => y ++ [eos_id]
    let ys_in_pad := pad_list eos_id ys_in
    let ys_out_pad := pad_list ignore_id ys_out
    if ys_in_pad.length = ys_out_pad.length ∧
        ys_in_pad.map List.length = ys_out_pad.map List.length then
      some (ys_in_pad, ys_out_pad)
    else none

/-- `foldr max 0` over a list of successors is the successor of the fold,
provided the list is non-empty. -/
theorem foldr_max_map_succ (l : List ℕ) (h : l ≠ []) :
    (l.map (· + 1)).foldr max 0 = l.foldr max 0 + 1 := by
  induction l with
  | nil => exact absurd rfl h
  | cons a t ih =>
    cases t with
    | nil => simp
    | cons b t' =>
      simp only [List.map_cons, List.foldr_cons] at ih ⊢
      rw [ih (by simp), Nat.succ_max_succ]

/-- Closed form of the padded decoder-input batch built by `preprocess`:
`sos` prepended to each filtered sequence, right-padded with `eos` to the
common length `batch_max_len + 1`. -/
theorem pad_list_in_eq (ignore_id sos_id eos_id : ℤ)
    (batch : List (List ℤ)) (hb : batch ≠ []) :
    pad_list eos_id
        ((batch.map (filtered ignore_id)).map fun y => sos_id :: y) =
      batch.map fun y => (sos_id :: filtered ignore_id y) ++
        List.replicate
          (batch_max_len ignore_id batch - (filtered ignore_id y).length)
          eos_id := by
  simp only [pad_list]
  have h1 : (((batch.map (filtered ignore_id)).map
        fun y => sos_id :: y).map List.length)
      = (batch.map fun y => (filtered ignore_id y).length).map (· + 1) := by
    simp [List.map_map, Function.comp_def]
  rw [h1, foldr_max_map_succ _ (by simpa using hb)]
  simp [List.map_map, Function.comp_def, Nat.succ_sub_succ, batch_max_len]

/-- Closed form of the padded gold batch built by `preprocess`: `eos`
appended to each filtered sequence, right-padded with IGNORE_ID to the
common length `batch_max_len + 1`. -/
theorem pad_list_out_eq (ignore_id eos_id : ℤ)
    (batch : List (List ℤ)) (hb : batch ≠ []) :
    pad_list ignore_id
        ((batch.map (filtered ignore_id)).map fun y => y ++ [eos_id]) =
      batch.map fun y => (filtered ignore_id y ++ [eos_id]) ++
        List.replicate
          (batch_max_len ignore_id batch - (filtered ignore_id y).length)
          ignore_id := by
  simp only [pad_list]
  have h1 : (((batch.map (filtered ignore_id)).map
        fun y => y ++ [eos_id]).map List.length)
      = (batch.map fun y => (filtered ignore_id y).length).map (· + 1) := by
    simp [List.map_map, Function.comp_def]
  rw [h1, foldr_max_map_succ _ (by simpa using hb)]
  simp [List.map_map, Function.comp_def, Nat.succ_sub_succ, batch_max_len]

/-- C4: on any non-empty batch, `preprocess` returns the decoder-input
batch (sos prepended, right-padded with eos) and the gold batch (eos
appended, right-padded with IGNORE_ID); the two results have the same
batch dimension (the input batch size) and the same time dimension (every
row of both has length `batch_max_len + 1`). -/
theorem preprocess_shapes :
    ∀ (ignore_id sos_id eos_id : ℤ) (batch : List (List ℤ)), batch ≠ [] →
    ∃ a b, preprocess ignore_id sos_id eos_id batch = some (a, b) ∧
      a = (batch.map fun y => (sos_id :: filtered ignore_id y) ++
        List.replicate
          (batch_max_len ignore_id batch - (filtered ignore_id y).length)
          eos_id) ∧
      b = (batch.map fun y => (filtered ignore_id y ++ [eos_id]) ++
        List.replicate
          (batch_max_len ignore_id batch - (filtered ignore_id y).length)
          ignore_id) ∧
      a.length = batch.length ∧ b.length = batch.length ∧
      a.length = b.length ∧ a.map List.length = b.map List.length ∧
      (∀ r ∈ a, r.length = batch_max_len ignore_id batch + 1) ∧
      (∀ r ∈ b, r.length = batch_max_len ignore_id batch + 1) := by
  intro ignore_id sos_id eos_id batch hb
  have hkle : ∀ y ∈ batch,
      (filtered ignore_id y).length ≤ batch_max_len ignore_id batch := by
    intro y hy
    exact le_foldr_max _ _ (List.mem_map.mpr ⟨y, hy, rfl⟩)
  have hAlen : ∀ r ∈ (batch.map fun y => (sos_id :: filtered ignore_id y) ++
      List.replicate
        (batch_max_len ignore_id batch - (filtered ignore_id y).length)
        eos_id), r.length = batch_max_len ignore_id batch + 1 := by
    intro r hr
    obtain ⟨y, hy, rfl⟩ := List.mem_map.mp hr
    have := hkle y hy
    simp only [List.length_append, List.length_cons, List.length_replicate]
    omega
  have hBlen : ∀ r ∈ (batch.map fun y => (filtered ignore_id y ++ [eos_id]) ++
      List.replicate
        (batch_max_len ignore_id batch - (filtered ignore_id y).length)
        ignore_id), r.length = batch_max_len ignore_id batch + 1 := by
    intro r hr
    obtain ⟨y, hy, rfl⟩ := List.mem_map.mp hr
    have := hkle y hy
    simp only [List.length_append, List.length_cons, List.length_replicate,
      List.length_nil]
    omega
  have hmapA : ((batch.map fun y => (sos_id :: filtered ignore_id y) ++
      List.replicate
        (batch_max_len ignore_id batch - (filtered ignore_id y).length)
        eos_id).map List.length)
      = List.replicate batch.length (batch_max_len ignore_id batch + 1) := by
    refine List.eq_replicate_iff.mpr ⟨by simp, ?_⟩
    intro m hm
    obtain ⟨r, hr, rfl⟩ := List.mem_map.mp hm
    exact hAlen r hr
  have hmapB : ((batch.map fun y => (filtered ignore_id y ++ [eos_id]) ++
      List.replicate
        (batch_max_len ignore_id batch - (filtered ignore_id y).length)
        ignore_id).map List.length)
      = List.replicate batch.length (batch_max_len ignore_id batch + 1) := by
    refine List.eq_replicate_iff.mpr ⟨by simp, ?_⟩
    intro m hm
    obtain ⟨r, hr, rfl⟩ := List.mem_map.mp hm
    exact hBlen r hr
  obtain ⟨y0, rest, rfl⟩ := List.exists_cons_of_ne_nil hb
  refine ⟨_, _, ?_, rfl, rfl, by simp, by simp, by simp,
    hmapA.trans hmapB.symm, hAlen, hBlen⟩
  simp only [preprocess]
  rw [pad_list_in_eq ignore_id sos_id eos_id (y0 :: rest) hb,
    pad_list_out_eq ignore_id eos_id (y0 :: rest) hb,
    if_pos ⟨by simp, hmapA.trans hmapB.symm⟩]

/-- Witness for C4 on the batch `[[7, -1], [8, 9]]` with
`IGNORE_ID = -1`, `sos = 1`, `eos = 2`: inputs are padded with eos 2, gold
with -1, and both results are 2 × 3. -/
theorem preprocess_shapes_witness :
    ∃ a b, preprocess (-1) 1 2 [[7, -1], [8, 9]] = some (a, b) ∧
      a = [[(1 : ℤ), 7, 2], [1, 8, 9]] ∧
      b = [[(7 : ℤ), 2, -1], [8, 9, 2]] ∧
      a.length = 2 ∧ b.length = 2 ∧
      (∀ r ∈ a, r.length = 3) ∧ (∀ r ∈ b, r.length = 3) := by
  obtain ⟨a, b, h1, h2, h3, _, _, _, _, h8, h9⟩ :=
    preprocess_shapes (-1) 1 2 [[7, -1], [8, 9]] (by decide)
  refine ⟨a, b, h1, ?_, ?_, ?_, ?_, ?_, ?_⟩
  · rw [h2]; decide
  · rw [h3]; decide
  · rw [h2]; decide
  · rw [h3]; decide
  · intro r hr
    rw [h8 r hr]; decide
  · intro r hr
    rw [h9 r hr]; decide

/-- `utils.get_subsequent_mask(seq)` for a length-`n` sequence:
`transformer/utils.py` is not among the source files.  Modelled from the
spec: the "subsequent (causal) mask ... prevents position i from attending
to position j > i — strictly upper-triangular boolean mask"; entry 1 marks
a blocked pair. -/
def get_subsequent_mask (n : ℕ) (i j : Fin n) : ℕ :=
  if (i : ℕ) < (j : ℕ) then 1 else 0

/-- `utils.get_attn_key_pad_mask(seq_k, seq_q, pad_idx)` at the decoder
self-attention call, where key and query sequence are both `seq`:
`transformer/utils.py` is not among the source files.  Modelled from the
spec: the "key-padding mask ... prevents any position from attending to
key positions that are pad tokens"; entry 1 marks a blocked key. -/
def get_attn_key_pad_mask (seq : List ℤ) (pad_idx : ℤ)
    (i j : Fin seq.length) : ℕ :=
  if seq.get j = pad_idx then 1 else 0

/-- `slf_attn_mask = (slf_attn_mask_keypad + slf_attn_mask_subseq).gt(0)`
(decoder.py line 132): the elementwise sum of the two component masks,
thresholded at zero. -/
def slf_attn_mask (seq : List ℤ) (pad_idx : ℤ) (i j : Fin seq.length) :
    Bool :=
  decide (0 < get_attn_key_pad_mask seq pad_idx i j +
    get_subsequent_mask seq.length i j)

/-- C3: the combined decoder self-attention mask blocks `(i, j)` exactly
when the key-padding mask blocks it or the causal mask blocks it — a
pointwise logical OR, i.e. true wherever either component is 1, which in
turn happens exactly when the key at `j` is the pad id or `j` is a future
position of `i`. -/
theorem slf_attn_mask_is_or :
    ∀ (seq : List ℤ) (pad_idx : ℤ) (i j : Fin seq.length),
      (slf_attn_mask seq pad_idx i j = true ↔
        (get_attn_key_pad_mask seq pad_idx i j = 1 ∨
          get_subsequent_mask seq.length i j = 1)) ∧
      (slf_attn_mask seq pad_idx i j = true ↔
        (seq.get j = pad_idx ∨ (i : ℕ) < (j : ℕ))) := by
  intro seq pad_idx i j
  by_cases hp : seq.get j = pad_idx <;> by_cases hl : (i : ℕ) < (j : ℕ) <;>
    (simp only [List.get_eq_getElem] at hp) <;>
    simp [slf_attn_mask, get_attn_key_pad_mask, get_subsequent_mask, hp, hl]

/-- A weight tensor of shape `n_tgt_vocab × d_model`, rational entries. -/
abbrev Mat (v d : ℕ) := Fin v → Fin d → ℚ

/-- Parameter state of the decoder after `Decoder.__init__`: a heap of
weight storages and, for the embedding (`tgt_word_emb.weight`) and output
projection (`tgt_word_prj.weight`), references into that heap.  Two layers
referencing the same heap cell share one storage object, which is how
`self.tgt_word_prj.weight = self.tgt_word_emb.weight` is modelled. -/
structure DecoderParams (v d : ℕ) where
  heap : ℕ → Mat v d
  emb_ref : ℕ
  prj_ref : ℕ
  x_logit_scale : ℚ

/-- `Decoder.__init__` (decoder.py lines 58-75), parameter wiring only:
heap cell 0 holds the embedding table, cell 1 the xavier-initialised
projection matrix.  With `tgt_emb_prj_weight_sharing` the projection
reference is redirected to the embedding cell and
`x_logit_scale = d_model ** -0.5` — passed in as `inv_sqrt_d`, the real
scale being irrational in general — otherwise the scale is 1. -/
def decoderInit (v d : ℕ) (emb_init xavier_init : Mat v d)
    (tgt_emb_prj_weight_sharing : Bool) (inv_sqrt_d : ℚ) :
    DecoderParams v d :=
  let heap : ℕ → Mat v d := fun r => if r = 0 then emb_init else xavier_init
  if tgt_emb_prj_weight_sharing then ⟨heap, 0, 0, inv_sqrt_d⟩
  else ⟨heap, 0, 1, 1⟩

/-- In-place mutation of one weight storage (what a training step or a
manual write to `.data` does to a tensor object). -/
def setStorage {v d : ℕ} (p : DecoderParams v d) (r : ℕ) (m : Mat v d) :
    DecoderParams v d :=
  { p with heap := fun s => if s = r then m else p.heap s }

/-- The embedding weight the decoder currently sees. -/
def emb_weight {v d : ℕ} (p : DecoderParams v d) : Mat v d := p.heap p.emb_ref

/-- The projection weight the decoder currently sees. -/
def prj_weight {v d : ℕ} (p : DecoderParams v d) : Mat v d := p.heap p.prj_ref

/-- One logit of `Decoder.forward` (decoder.py lines 113-146), specialised
to a single sequence position, an empty layer stack (`n_layers = 0`, a
legal constructor argument, under which the loop of line 134 runs zero
times) and eval-mode dropout (identity): line 113 multiplies the embedding
lookup by `x_logit_scale`, line 114 adds the positional encoding `pos`, and
line 146 applies `tgt_word_prj`. -/
def forward_logit {v d : ℕ} (p : DecoderParams v d) (pos : Fin d → ℚ)
    (tok w : Fin v) : ℚ :=
  ∑ i, prj_weight p w i * (emb_weight p tok i * p.x_logit_scale + pos i)

/-- All-ones 1 × 4 weight matrix, for the concrete counterexample. -/
def onesMat : Mat 1 4 := fun _ _ => 1

/-- All-ones positional-encoding row, for the concrete counterexample. -/
def onesPos : Fin 4 → ℚ := fun _ => 1

/-- Counterexample to C1 as stated: with `d_model = 4` (so
`d_model ** -0.5 = 1/2`), identical weight values in both configurations,
and all-ones positional encoding, the shared-mode logit is 6 while the
non-shared logit is 8 — the shared logit is not the non-shared logit
scaled by `hidden_dim^-0.5` (which would be 4), because line 113 scales
only the embedding term and the positional encoding enters unscaled. -/
theorem weight_sharing_logit_scale_counterexample :
    forward_logit (decoderInit 1 4 onesMat onesMat true (1/2)) onesPos 0 0
        = 6 ∧
    forward_logit (decoderInit 1 4 onesMat onesMat false (1/2)) onesPos 0 0
        = 8 ∧
    ¬(forward_logit (decoderInit 1 4 onesMat onesMat true (1/2)) onesPos 0 0
      = (1/2) *
        forward_logit (decoderInit 1 4 onesMat onesMat false (1/2))
          onesPos 0 0) := by
  refine ⟨?_, ?_, ?_⟩ <;>
    simp [forward_logit, decoderInit, emb_weight, prj_weight, onesMat,
      onesPos, Fin.sum_univ_four] <;> norm_num

/-- C1 (amended): with weight sharing the projection weight references the
same storage as the embedding table — mutating either storage is visible
through both views — and `x_logit_scale = d_model ** -0.5`; in `forward`
that scale multiplies the embedding term of the decoder-stack input (not
the logits), while with sharing disabled the scale is 1 and no scaling
occurs anywhere. -/
theorem weight_sharing_storage_and_embedding_scale :
    ∀ (v d : ℕ) (emb_init xavier_init : Mat v d) (inv_sqrt_d : ℚ)
      (m : Mat v d) (pos : Fin d → ℚ) (tok w : Fin v),
      (decoderInit v d emb_init xavier_init true inv_sqrt_d).prj_ref =
        (decoderInit v d emb_init xavier_init true inv_sqrt_d).emb_ref ∧
      prj_weight (setStorage (decoderInit v d emb_init xavier_init true
        inv_sqrt_d)
        (decoderInit v d emb_init xavier_init true inv_sqrt_d).emb_ref m)
        = m ∧
      emb_weight (setStorage (decoderInit v d emb_init xavier_init true
        inv_sqrt_d)
        (decoderInit v d emb_init xavier_init true inv_sqrt_d).prj_ref m)
        = m ∧
      (decoderInit v d emb_init xavier_init true inv_sqrt_d).x_logit_scale
        = inv_sqrt_d ∧
      (decoderInit v d emb_init xavier_init false inv_sqrt_d).x_logit_scale
        = 1 ∧
      forward_logit (decoderInit v d emb_init xavier_init true inv_sqrt_d)
          pos tok w
        = ∑ i, emb_init w i * (emb_init tok i * inv_sqrt_d + pos i) ∧
      forward_logit (decoderInit v d emb_init xavier_init false inv_sqrt_d)
          pos tok w
        = ∑ i, xavier_init w i * (emb_init tok i + pos i) := by
  intro v d emb_init xavier_init inv_sqrt_d m pos tok w
  refine ⟨rfl, ?_, ?_, rfl, rfl, ?_, ?_⟩
  · funext a b
    simp [decoderInit, setStorage, prj_weight]
  · funext a b
    simp [decoderInit, setStorage, emb_weight]
  · simp [forward_logit, decoderInit, emb_weight, prj_weight]
  · simp [forward_logit, decoderInit, emb_weight, prj_weight]

/-- Observable events of one `DecoderLayer.forward` call, in program
order: the interactive breakpoint of line 260 and the three sub-layer
computations of lines 263-275. -/
inductive LayerEffect
  | ipdbBreakpoint
  | slfAttn
  | encAttn
  | posFfn
deriving DecidableEq, Repr

/-- Effect trace of `DecoderLayer.forward` (decoder.py lines 259-277):
`import ipdb; ipdb.set_trace()` executes unconditionally first, then
self-attention, cross-attention and the position-wise feed-forward. -/
def decoderLayerForwardTrace : List LayerEffect :=
  [.ipdbBreakpoint, .slfAttn, .encAttn, .posFfn]

/-- Effect trace of the layer-stack loop of `Decoder.forward`
(decoder.py lines 134-139): one `DecoderLayer.forward` per layer. -/
def decoderForwardTrace (n_layers : ℕ) : List LayerEffect :=
  (List.range n_layers).foldr (fun _ acc => decoderLayerForwardTrace ++ acc)
    []

/-- Effect trace of one decode step of `Decoder.recognize_beam`
(decoder.py lines 193-198): the full layer stack runs once per active
hypothesis. -/
def recognizeBeamStepTrace (n_layers n_hyps : ℕ) : List LayerEffect :=
  (List.range n_hyps).foldr (fun _ acc => decoderForwardTrace n_layers ++ acc)
    []

/-- Membership in a repeated-append fold, from membership in the repeated
block (the index list must be non-empty). -/
theorem foldr_append_mem {α : Type} (x : α) (L b : List α) (r : List ℕ)
    (hr : r ≠ []) (hx : x ∈ L) :
    x ∈ r.foldr (fun _ acc => L ++ acc) b := by
  cases r with
  | nil => exact absurd rfl hr
  | cons a t => simp [List.mem_append, hx]

/-- C9: every `DecoderLayer.forward` invocation hits the interactive
`ipdb.set_trace()` breakpoint before any sub-layer computation (it is the
head of the trace), so any training forward pass or beam-search decode
step that runs at least one layer on at least one hypothesis contains the
breakpoint event and cannot complete without interactive intervention. -/
theorem decoder_layer_unconditional_breakpoint :
    decoderLayerForwardTrace.head? = some LayerEffect.ipdbBreakpoint ∧
    (∀ n_layers : ℕ, 0 < n_layers →
      LayerEffect.ipdbBreakpoint ∈ decoderForwardTrace n_layers) ∧
    (∀ n_layers n_hyps : ℕ, 0 < n_layers → 0 < n_hyps →
      LayerEffect.ipdbBreakpoint ∈ recognizeBeamStepTrace n_layers n_hyps) := by
  refine ⟨rfl, ?_, ?_⟩
  · intro n hn
    exact foldr_append_mem _ _ _ _
      (by simp [List.range_eq_nil]; omega)
      (by simp [decoderLayerForwardTrace])
  · intro n m hn hm
    exact foldr_append_mem _ _ _ _
      (by simp [List.range_eq_nil]; omega)
      (foldr_append_mem _ _ _ _
        (by simp [List.range_eq_nil]; omega)
        (by simp [decoderLayerForwardTrace]))

/-- Witness for C9 at the constructor defaults `n_layers = 6` and a single
active hypothesis. -/
theorem decoder_layer_unconditional_breakpoint_witness :
    LayerEffect.ipdbBreakpoint ∈ decoderForwardTrace 6 ∧
    LayerEffect.ipdbBreakpoint ∈ recognizeBeamStepTrace 6 1 :=
  ⟨decoder_layer_unconditional_breakpoint.2.1 6 (by decide),
    decoder_layer_unconditional_breakpoint.2.2 6 1 (by decide) (by decide)⟩

/-- The attribute names `Decoder.__init__` assigns on `self`
(decoder.py lines 44-75); note line 59 stores the positional-encoding
module under the name `pos_emb`. -/
def decoderInitAttrs : List String :=
  ["sos_id", "eos_id", "n_tgt_vocab", "d_word_vec", "n_layers", "n_head",
    "d_k", "d_v", "d_model", "d_inner", "dropout",
    "tgt_emb_prj_weight_sharing", "pe_maxlen", "tgt_word_emb", "pos_emb",
    "layer_stack", "tgt_word_prj", "x_logit_scale"]

/-- Python attribute lookup on the constructed decoder: names assigned by
`__init__` resolve; any other name raises `AttributeError`. -/
def getattrDecoder (name : String) : Except String Unit :=
  if name ∈ decoderInitAttrs then .ok ()
  else .error ("AttributeError: " ++ name)

/-- Sequential attribute resolution: stop at the first missing name. -/
def readAttrs : List String → Except String Unit
  | [] => .ok ()
  | n :: rest =>
    match getattrDecoder n with
    | .error e => .error e
    | .ok _ => readAttrs rest

/-- The attributes the first decode step of `Decoder.recognize_beam` reads
to evaluate lines 189-191, in Python evaluation order:
`self.dropout(self.tgt_word_emb(ys) * self.x_logit_scale +
self.positional_encoding(ys))`. -/
def recognizeBeamStepAttrReads : List String :=
  ["dropout", "tgt_word_emb", "x_logit_scale", "positional_encoding"]

/-- Evaluating the forward expression of the first decode step: resolves
its attribute reads before any hypothesis can be extended or ended. -/
def recognizeBeamFirstStep : Except String Unit :=
  readAttrs recognizeBeamStepAttrReads

/-- C10: `recognize_beam`'s first decode step reads
`self.positional_encoding`, a name `__init__` never assigns (the module is
stored as `pos_emb`), so the step raises `AttributeError` before any
hypothesis is produced, on every input. -/
theorem recognize_beam_attribute_error :
    recognizeBeamFirstStep =
      .error ("AttributeError: " ++ "positional_encoding") ∧
    "positional_encoding" ∉ decoderInitAttrs ∧
    "pos_emb" ∈ decoderInitAttrs ∧
    "positional_encoding" ∈ recognizeBeamStepAttrReads := by
  refine ⟨?_, by decide, by decide, by decide⟩
  rfl

/-- A beam-search hypothesis (decoder.py line 175): cumulative
log-probability `score` and the token sequence so far. -/
structure Hyp where
  score : ℚ
  yseq : List ℕ
deriving DecidableEq, Repr

/-- Insertion into a list sorted by score descending. -/
def insertDesc (h : Hyp) : List Hyp → List Hyp
  | [] => [h]
  | a :: t => if a.score < h.score then h :: a :: t else a :: insertDesc h t

/-- `sorted(..., key=lambda x: x["score"], reverse=True)`
(decoder.py lines 216-218). -/
def sortDesc (l : List Hyp) : List Hyp := l.foldr insertDesc []

/-- The candidate extensions of one hypothesis (decoder.py lines 184-214):
running the decoder stack on `yseq`, log-softmaxing the last-position
logits and taking the top `beam` (score, id) pairs.  The scoring pipeline
(attention layers, positional encoding) lives in modules that are not
among the source files — and its literal execution fails, see the C9/C10
theorems — so it is abstracted as the oracle `cands`, modelled from the
spec: "select the top-`beam` candidate extensions by log-probability".
Each candidate id is appended and its log-probability added to the
score. -/
def extendHyp (cands : List ℕ → List (ℚ × ℕ)) (h : Hyp) : List Hyp :=
  (cands h.yseq).map fun p => ⟨h.score + p.1, h.yseq ++ [p.2]⟩

/-- The `for hyp in hyps` loop body of one decode step
(decoder.py lines 181-218): accumulate every hypothesis's extensions into
`hyps_best_kept`, re-sorting by score descending and pruning to the beam
width after each hypothesis. -/
def stepActive (cands : List ℕ → List (ℚ × ℕ)) (beam : ℕ)
    (hyps : List Hyp) : List Hyp :=
  hyps.foldl (fun kept h => (sortDesc (kept ++ extendHyp cands h)).take beam)
    []

/-- Line 223-227: on the final step, `eos` is appended to every still
active hypothesis. -/
def appendEosAll (eos : ℕ) (hyps : List Hyp) : List Hyp :=
  hyps.map fun h => ⟨h.score, h.yseq ++ [eos]⟩

/-- `hyp['yseq'][0, -1] == self.eos_id` (decoder.py line 233). -/
def endsWithEos (eos : ℕ) (h : Hyp) : Bool := h.yseq.getLast? == some eos

/-- One full iteration of the `for i in range(maxlen)` loop
(decoder.py lines 179-238) on the state (active hypotheses, ended
hypotheses): extend and prune the active set, force `eos` onto every
survivor when this is the final step, then move the hypotheses whose last
token is `eos` to the ended set and keep the rest active. -/
def beamStep (cands : List ℕ → List (ℚ × ℕ)) (beam eos : ℕ)
    (is_last : Bool) (st : List Hyp × List Hyp) : List Hyp × List Hyp :=
  let kept := stepActive cands beam st.1
  let kept2 := if is_last then appendEosAll eos kept else kept
  (kept2.filter (fun h => !endsWithEos eos h),
    st.2 ++ kept2.filter (endsWithEos eos))

/-- The decode loop, counted by remaining iterations: the step executed
with `fuel = k + 1` is the final one exactly when `k = 0`. -/
def beamLoop (cands : List ℕ → List (ℚ × ℕ)) (beam eos : ℕ) :
    ℕ → List Hyp × List Hyp → List Hyp × List Hyp
  | 0, st => st
  | k + 1, st => beamLoop cands beam eos k
      (beamStep cands beam eos (k == 0) st)

/-- `Decoder.recognize_beam` (decoder.py lines 155-246) as hypothesis
bookkeeping: start from the single `sos` hypothesis with score 0 and empty
ended set, run `maxlen` decode steps, and return
(still active hypotheses, ended hypotheses). -/
def recognize_beam (cands : List ℕ → List (ℚ × ℕ)) (beam eos sos maxlen : ℕ) :
    List Hyp × List Hyp :=
  beamLoop cands beam eos maxlen ([⟨0, [sos]⟩], [])

/-- Descending insertion grows the length by one. -/
theorem insertDesc_length (h : Hyp) (l : List Hyp) :
    (insertDesc h l).length = l.length + 1 := by
  induction l with
  | nil => rfl
  | cons a t ih =>
    simp only [insertDesc]
    split <;> simp [ih]

/-- Descending sort preserves the length. -/
theorem sortDesc_length (l : List Hyp) : (sortDesc l).length = l.length := by
  induction l with
  | nil => rfl
  | cons a t ih =>
    show (insertDesc a (sortDesc t)).length = t.length + 1
    rw [insertDesc_length, ih]

/-- Descending sort of a non-empty list is non-empty. -/
theorem sortDesc_ne_nil (l : List Hyp) (hl : l ≠ []) : sortDesc l ≠ [] := by
  intro h
  apply hl
  have := sortDesc_length l
  rw [h] at this
  exact List.length_eq_zero.mp this.symm

/-- With a non-empty candidate oracle, every hypothesis has extensions. -/
theorem extendHyp_ne_nil (cands : List ℕ → List (ℚ × ℕ))
    (hc : ∀ ys, cands ys ≠ []) (h : Hyp) : extendHyp cands h ≠ [] := by
  simp only [extendHyp, ne_eq, List.map_eq_nil_iff]
  exact hc h.yseq

/-- The pruned accumulator of the extension loop is never emptied once the
loop has consumed at least one hypothesis (oracle non-empty, beam ≥ 1). -/
theorem stepActive_foldl_ne_nil (cands : List ℕ → List (ℚ × ℕ))
    (beam : ℕ) (hc : ∀ ys, cands ys ≠ []) (hb : 1 ≤ beam) :
    ∀ (hyps : List Hyp) (kept : List Hyp), (hyps = [] → kept ≠ []) →
    hyps.foldl
      (fun kept h => (sortDesc (kept ++ extendHyp cands h)).take beam)
      kept ≠ [] := by
  intro hyps
  induction hyps with
  | nil =>
    intro kept hk
    exact hk rfl
  | cons h t ih =>
    intro kept _
    simp only [List.foldl_cons]
    apply ih
    intro _
    have h1 : kept ++ extendHyp cands h ≠ [] := by
      simp [List.append_eq_nil]
      intro _
      exact extendHyp_ne_nil cands hc h
    have h2 := sortDesc_ne_nil _ h1
    simp only [ne_eq, List.take_eq_nil_iff]
    push_neg
    exact ⟨by omega, h2⟩

/-- The active set produced by one extension loop over a non-empty active
set is non-empty. -/
theorem stepActive_ne_nil (cands : List ℕ → List (ℚ × ℕ)) (beam : ℕ)
    (hc : ∀ ys, cands ys ≠ []) (hb : 1 ≤ beam) (hyps : List Hyp)
    (hh : hyps ≠ []) : stepActive cands beam hyps ≠ [] :=
  stepActive_foldl_ne_nil cands beam hc hb hyps [] (fun he => absurd he hh)

/-- A non-empty list has a non-empty filtrate on one side of any boolean
predicate. -/
theorem filter_or_filter_not_ne_nil {α : Type} (p : α → Bool) (l : List α)
    (hl : l ≠ []) :
    l.filter p ≠ [] ∨ l.filter (fun x => !p x) ≠ [] := by
  cases l with
  | nil => exact absurd rfl hl
  | cons a t =>
    by_cases hp : p a
    · exact Or.inl (List.ne_nil_of_mem (List.mem_filter.mpr ⟨List.mem_cons_self a t, hp⟩))
    · refine Or.inr (List.ne_nil_of_mem (List.mem_filter.mpr
        ⟨List.mem_cons_self a t, ?_⟩))
      simp [hp]

/-- After the forced-eos rewrite of the final step, every surviving
hypothesis ends with `eos`. -/
theorem appendEosAll_endsWith (eos : ℕ) (l : List Hyp) :
    ∀ h ∈ appendEosAll eos l, endsWithEos eos h = true := by
  intro h hh
  simp only [appendEosAll, List.mem_map] at hh
  obtain ⟨h0, _, rfl⟩ := hh
  simp [endsWithEos]

/-- A `beamStep` keeps the state non-trivial: if some hypothesis was active
or ended before the step, some hypothesis is active or ended after it
(oracle non-empty, beam ≥ 1). -/
theorem beamStep_preserves (cands : List ℕ → List (ℚ × ℕ)) (beam eos : ℕ)
    (is_last : Bool) (hc : ∀ ys, cands ys ≠ []) (hb : 1 ≤ beam)
    (st : List Hyp × List Hyp) (hst : st.1 ≠ [] ∨ st.2 ≠ []) :
    (beamStep cands beam eos is_last st).1 ≠ [] ∨
      (beamStep cands beam eos is_last st).2 ≠ [] := by
  by_cases h1 : st.1 = []
  · right
    rcases hst with h | h
    · exact absurd h1 h
    · simp only [beamStep, h1]
      cases is_last <;> simp [stepActive, appendEosAll, h]
  · have hkept := stepActive_ne_nil cands beam hc hb st.1 h1
    have hkept2 : (if is_last then appendEosAll eos (stepActive cands beam st.1)
        else stepActive cands beam st.1) ≠ [] := by
      cases is_last with
      | false => simpa using hkept
      | true =>
        simp only [if_pos rfl, appendEosAll, ne_eq, List.map_eq_nil_iff]
        simpa using hkept
    rcases filter_or_filter_not_ne_nil (endsWithEos eos) _ hkept2 with h | h
    · right
      simp only [beamStep]
      intro hcontra
      rw [List.append_eq_nil] at hcontra
      exact h hcontra.2
    · left
      simpa [beamStep] using h

/-- On the final decode step every pruned hypothesis receives `eos` and
moves to the ended set: no hypothesis stays active. -/
theorem beamStep_last_active_nil (cands : List ℕ → List (ℚ × ℕ))
    (beam eos : ℕ) (st : List Hyp × List Hyp) :
    (beamStep cands beam eos true st).1 = [] := by
  simp only [beamStep, if_pos rfl]
  rw [List.filter_eq_nil_iff]
  intro h hh
  have := appendEosAll_endsWith eos (stepActive cands beam st.1) h hh
  simp [this]

/-- `beamLoop` preserves state non-triviality. -/
theorem beamLoop_preserves (cands : List ℕ → List (ℚ × ℕ)) (beam eos : ℕ)
    (hc : ∀ ys, cands ys ≠ []) (hb : 1 ≤ beam) :
    ∀ (k : ℕ) (st : List Hyp × List Hyp), st.1 ≠ [] ∨ st.2 ≠ [] →
    (beamLoop cands beam eos k st).1 ≠ [] ∨
      (beamLoop cands beam eos k st).2 ≠ [] := by
  intro k
  induction k with
  | zero => exact fun st h => h
  | succ n ih =>
    intro st h
    exact ih _ (beamStep_preserves cands beam eos (n == 0) hc hb st h)

/-- After a loop of at least one step, the active set is empty: the last
executed step forces `eos` onto every active hypothesis. -/
theorem beamLoop_active_nil (cands : List ℕ → List (ℚ × ℕ)) (beam eos : ℕ) :
    ∀ (k : ℕ) (st : List Hyp × List Hyp), 1 ≤ k →
    (beamLoop cands beam eos k st).1 = [] := by
  intro k
  induction k with
  | zero => omega
  | succ n ih =>
    intro st _
    cases n with
    | zero =>
      simp only [beamLoop]
      exact beamStep_last_active_nil cands beam eos st
    | succ m => exact ih _ (by omega)

/-- C5: after any decode step, no active hypothesis ends with `eos`
(hypotheses reaching `eos` are moved out and never extended again); the
ended set only ever grows, and everything it gains ends with `eos`; on the
final step every surviving hypothesis is forced to end with `eos` and the
active set empties; consequently the ended set of a full `recognize_beam`
run is non-empty for every input (any oracle producing at least one
candidate per query, any `beam ≥ 1`, any `maxlen ≥ 1`). -/
theorem recognize_beam_eos_handling (cands : List ℕ → List (ℚ × ℕ))
    (beam eos sos maxlen : ℕ) (hc : ∀ ys, cands ys ≠ [])
    (hb : 1 ≤ beam) (hm : 1 ≤ maxlen) :
    (∀ (is_last : Bool) (st : List Hyp × List Hyp) (h : Hyp),
      h ∈ (beamStep cands beam eos is_last st).1 →
      endsWithEos eos h = false) ∧
    (∀ (is_last : Bool) (st : List Hyp × List Hyp),
      ∃ newEnded, (beamStep cands beam eos is_last st).2 = st.2 ++ newEnded
        ∧ ∀ h ∈ newEnded, endsWithEos eos h = true) ∧
    (∀ st : List Hyp × List Hyp,
      (beamStep cands beam eos true st).1 = []) ∧
    (recognize_beam cands beam eos sos maxlen).2 ≠ [] := by
  refine ⟨?_, ?_, beamStep_last_active_nil cands beam eos, ?_⟩
  · intro is_last st h hh
    simp only [beamStep, List.mem_filter] at hh
    simpa using hh.2
  · intro is_last st
    refine ⟨_, rfl, ?_⟩
    intro h hh
    exact (List.mem_filter.mp hh).2
  · have hP := beamLoop_preserves cands beam eos hc hb maxlen
      ([⟨0, [sos]⟩], []) (Or.inl (by simp))
    have hA := beamLoop_active_nil cands beam eos maxlen
      ([⟨0, [sos]⟩], []) hm
    rcases hP with h | h
    · exact absurd hA h
    · exact h

/-- A constant one-candidate oracle, for the C5 witness. -/
def constCands : List ℕ → List (ℚ × ℕ) := fun _ => [(0, 9)]

/-- Witness for C5: with the constant oracle, beam 5, `eos = 7`,
`sos = 1` and `maxlen = 2`, the ended set at the end of decoding is
non-empty and the final step leaves no hypothesis active. -/
theorem recognize_beam_eos_handling_witness :
    (recognize_beam constCands 5 7 1 2).2 ≠ [] ∧
    (beamStep constCands 5 7 true ([⟨0, [1]⟩], [])).1 = [] := by
  have h := recognize_beam_eos_handling constCands 5 7 1 2
    (fun ys => by simp [constCands]) (by decide) (by decide)
  exact ⟨h.2.2.2, h.2.2.1 ([⟨0, [1]⟩], [])⟩

end TransformerNMT
